import Mathlib

/-!
Verification of the job-hunter scraping pipeline (`scrape_jobs.py`).

The Python program parses HTML with BeautifulSoup.  We embed page content at
the level BeautifulSoup exposes it: a page is the parsed DOM, a list of
top-level `Node`s (element nodes carrying tag / class list / attributes /
children, and text nodes).  The CSS-select calls used by the program
(`tag`, `tag.class`, and descendant chains such as `h2 a`) are embedded by
`select` / `selOne` below, returning matches in document (pre-order)
order, exactly as `soup.select` / `select_one` do.

Effects are made explicit:
* `datetime.utcnow()` becomes a `now : String` parameter (the timestamp the
  call captures);
* page fetching (`requests.get` / Selenium `driver.get`) becomes a
  `fetch : String → Except TransportError Html` oracle, indexed by the URL,
  where `TransportError` stands for the exceptions the program handles
  (`requests.HTTPError`, `requests.RequestException`) or a driver failure.
-/

/-- A parsed HTML node, as BeautifulSoup exposes it: an element with tag
name, class list, remaining attributes and children, or a text node. -/
inductive Node where
  | elem (tag : String) (classes : List String) (attrs : List (String × String)) (children : List Node)
  | text (s : String)

/-- Page content: the top-level nodes of the parsed document. -/
abbrev Html := List Node

/-- One step of a CSS selector: a tag name, optionally restricted to a
class (`div.job_seen_beacon` is `⟨"div", some "job_seen_beacon"⟩`,
`h2` is `⟨"h2", none⟩`).  All selectors in `scrape_jobs.py` have this form. -/
structure Simple where
  tag : String
  cls : Option String

/-- Does a node match one selector step? -/
def matchesSimple (s : Simple) : Node → Bool
  | Node.elem tag classes _ _ =>
      s.tag == tag && (match s.cls with
        | none => true
        | some c => classes.contains c)
  | Node.text _ => false

mutual

/-- All nodes of the subtree rooted at the given node (the node included),
in document (pre-order) order, each paired with its list of ancestors
below the search root, outermost first. -/
def nodesAnc (anc : List Node) : Node → List (Node × List Node)
  | Node.text s => [(Node.text s, anc)]
  | Node.elem t c a ch =>
      (Node.elem t c a ch, anc) :: nodesAncList (anc ++ [Node.elem t c a ch]) ch

/-- `nodesAnc` mapped over a list of sibling nodes, in order. -/
def nodesAncList (anc : List Node) : List Node → List (Node × List Node)
  | [] => []
  | n :: ns => nodesAnc anc n ++ nodesAncList anc ns

end

/-- Can the selector steps be matched, in order, against a subsequence of
the ancestor list (outermost ancestor first)?  Greedy matching, which is
complete for subsequence embedding. -/
def ancEmbeds : List Simple → List Node → Bool
  | [], _ => true
  | _ :: _, [] => false
  | s :: ss, a :: as => if matchesSimple s a then ancEmbeds ss as else ancEmbeds (s :: ss) as

/-- Does a node, with the given ancestors below the search root, match a
descendant-combinator selector chain (e.g. `h2 a`)?  The node must match
the last step and the remaining steps must embed into its ancestors. -/
def chainMatches (sel : List Simple) (anc : List Node) (n : Node) : Bool :=
  match sel.getLast? with
  | none => false
  | some s => matchesSimple s n && ancEmbeds sel.dropLast anc

/-- Embedding of `root.select(sel)`: all strict descendants of `root`
matching the selector chain, in document order. -/
def select (root : Node) (sel : List Simple) : List Node :=
  let subs :=
    match root with
    | Node.elem _ _ _ ch => nodesAncList [] ch
    | Node.text _ => []
  (subs.filter (fun p => chainMatches sel p.2 p.1)).map (fun p => p.1)

/-- Embedding of `root.select_one(sel)`: first match in document order. -/
def selOne (root : Node) (sel : List Simple) : Option Node :=
  (select root sel).head?

/-- Embedding of the BeautifulSoup call `tag.get(key)`: the attribute value, if
present. -/
def Node.getAttr (n : Node) (key : String) : Option String :=
  match n with
  | Node.elem _ _ attrs _ => (attrs.find? (fun kv => kv.1 == key)).map (fun kv => kv.2)
  | Node.text _ => none

mutual

/-- All text-node strings within a node, in document order. -/
def textStrings : Node → List String
  | Node.text s => [s]
  | Node.elem _ _ _ ch => textStringsList ch

/-- `textStrings` over sibling nodes, in order. -/
def textStringsList : List Node → List String
  | [] => []
  | n :: ns => textStrings n ++ textStringsList ns

end

/-- Is `pat` a leading segment of `s` (on character lists)? -/
def listHasPre : List Char → List Char → Bool
  | [], _ => true
  | _ :: _, [] => false
  | p :: ps, c :: cs => p == c && listHasPre ps cs

/-- Does `pat` occur contiguously anywhere in `s` (on character lists)? -/
def listHasSub (pat : List Char) : List Char → Bool
  | [] => pat.isEmpty
  | c :: cs => listHasPre pat (c :: cs) || listHasSub pat cs

/-- Embedding of the Python substring test `pat in s`. -/
def strIn (pat s : String) : Bool :=
  listHasSub pat.toList s.toList

/-- Leading and trailing whitespace removed from a character list. -/
def trimChars (l : List Char) : List Char :=
  ((l.dropWhile Char.isWhitespace).reverse.dropWhile Char.isWhitespace).reverse

/-- Embedding of the Python method `str.strip()`. -/
def strTrim (s : String) : String :=
  String.mk (trimChars s.data)

/-- Embedding of `tag.get_text(strip=True)`: each contained string
stripped, empties dropped, the rest concatenated. -/
def getTextStrip (n : Node) : String :=
  String.join (((textStrings n).map strTrim).filter (fun s => s ≠ ""))

/-- Embedding of `tag.get_text(separator=sep, strip=True)`. -/
def getTextSep (sep : String) (n : Node) : String :=
  sep.intercalate (((textStrings n).map strTrim).filter (fun s => s ≠ ""))

/-- Worker for `pySplitWs`: `cur` holds the current word, reversed. -/
def wordsAux : List Char → List Char → List String
  | cur, [] => if cur.isEmpty then [] else [String.mk cur.reverse]
  | cur, c :: cs =>
      if c.isWhitespace then
        if cur.isEmpty then wordsAux [] cs
        else String.mk cur.reverse :: wordsAux [] cs
      else wordsAux (c :: cur) cs

/-- Embedding of the Python method `str.split()` (split on whitespace runs,
dropping empty tokens). -/
def pySplitWs (s : String) : List String :=
  wordsAux [] s.data

/-- Embedding of `" ".join(s.split())`: collapse whitespace runs. -/
def normSpace (s : String) : String :=
  " ".intercalate (pySplitWs s)

/-- Embedding of the Python method `s.startswith(pat)`. -/
def pyStartsWith (s pat : String) : Bool :=
  listHasPre pat.data s.data

/-- Embedding of `s.split(sep)[0]` for a one-character separator: the
segment before the first occurrence of the separator. -/
def takeUntilChar (s : String) (c : Char) : String :=
  String.mk (s.data.takeWhile (fun x => x ≠ c))

/-- The canonical record of the pipeline, mirroring the `JobPosting`
dataclass field for field. -/
structure JobPosting where
  source : String
  title : String
  company : String
  location : String
  url : String
  summary : String
  posted_raw : String
  scraped_at : String
  search_term : String
deriving DecidableEq, Repr

/-- The transport failures distinguished by the `except` clauses of the paginators
(`requests.HTTPError`, other `requests.RequestException`), plus a browser
driver failure for the Selenium path. -/
inductive TransportError where
  | httpError
  | requestError
  | driverError
deriving DecidableEq, Repr

/-- A page-fetch oracle: what the network/browser returns for each URL. -/
abbrev Fetch := String → Except TransportError Html

/-- Uppercase hexadecimal digit, as the `urllib` percent-encoding emits. -/
def hexDigitChar (n : Nat) : Char :=
  if n < 10 then Char.ofNat (48 + n) else Char.ofNat (55 + n)

/-- UTF-8 encoding of one character, as a list of byte values. -/
def utf8Bytes (c : Char) : List Nat :=
  let n := c.toNat
  if n < 128 then [n]
  else if n < 2048 then [192 + n / 64, 128 + n % 64]
  else if n < 65536 then [224 + n / 4096, 128 + (n / 64) % 64, 128 + n % 64]
  else [240 + n / 262144, 128 + (n / 4096) % 64, 128 + (n / 64) % 64, 128 + n % 64]

/-- Characters `requests.utils.quote` leaves unencoded: RFC 3986 unreserved
characters plus the default safe character `/`. -/
def isUnreservedOrSafe (c : Char) : Bool :=
  c.isAlphanum || c == '-' || c == '.' || c == '_' || c == '~' || c == '/'

/-- Percent-encoding of one byte value. -/
def pctByte (b : Nat) : List Char :=
  ['%', hexDigitChar (b / 16), hexDigitChar (b % 16)]

/-- Character-list worker for `quote`. -/
def quoteCore : List Char → List Char
  | [] => []
  | c :: cs =>
      (if isUnreservedOrSafe c then [c] else ((utf8Bytes c).map pctByte).flatten) ++ quoteCore cs

/-- Embedding of `requests.utils.quote` (URL percent-encoding, safe=`/`). -/
def quote (s : String) : String :=
  String.mk (quoteCore s.data)

/-- Embedding of `build_indeed_url`. -/
def build_indeed_url (query : String) (location : String) (start : Nat) : String :=
  let base := "https://www.indeed.com/jobs"
  let params := [("q", query), ("l", location), ("start", toString start)]
  let query_string := "&".intercalate (params.map (fun kv => kv.1 ++ "=" ++ quote kv.2))
  base ++ "?" ++ query_string

/-- Embedding of `build_google_jobs_url`. -/
def build_google_jobs_url (query : String) (location : String) (start : Nat) : String :=
  let base := "https://www.google.com/search"
  let q := "site:linkedin.com/jobs/ \"" ++ query ++ "\" " ++ location
  let params := [("q", q), ("start", toString start)]
  let query_string := "&".intercalate (params.map (fun kv => kv.1 ++ "=" ++ quote kv.2))
  base ++ "?" ++ query_string

/-- Embedding of `build_linkedin_url`. -/
def build_linkedin_url (query : String) (location : String) (page : Nat) : String :=
  let base := "https://www.linkedin.com/jobs/search"
  let params := [("keywords", query), ("location", location), ("position", "1"), ("pageNum", toString page)]
  let query_string := "&".intercalate (params.map (fun kv => kv.1 ++ "=" ++ quote kv.2))
  base ++ "?" ++ query_string

/-- The synthetic document node `BeautifulSoup(html, "html.parser")` wraps a
page in; selecting on it searches the whole page. -/
def docRoot (html : Html) : Node :=
  Node.elem "[document]" [] [] html

/-- Indeed card containers: `soup.select("div.job_seen_beacon") or
soup.select("div.jobsearch-SerpJobCard")` (second pattern tried only when
the first yields nothing). -/
def indeed_cards (html : Html) : List Node :=
  let c := select (docRoot html) [⟨"div", some "job_seen_beacon"⟩]
  if c.isEmpty then select (docRoot html) [⟨"div", some "jobsearch-SerpJobCard"⟩] else c

/-- The title/link anchor of an Indeed card: `card.select_one("h2 a") or
card.select_one("h2.jobTitle a")`. -/
def indeedAnchor (card : Node) : Option Node :=
  selOne card [⟨"h2", none⟩, ⟨"a", none⟩] <|> selOne card [⟨"h2", some "jobTitle"⟩, ⟨"a", none⟩]

/-- The record `parse_indeed_jobs` builds from one card, `none` when the
card is skipped (`if not title_element: continue`). -/
def indeedCard (search_term : String) (now : String) (card : Node) : Option JobPosting :=
  match indeedAnchor card with
  | none => none
  | some title_element =>
    let title :=
      match title_element.getAttr "aria-label" with
      | some s => if s == "" then getTextStrip title_element else s
      | none => getTextStrip title_element
    let href := (title_element.getAttr "href").getD ""
    let url := if pyStartsWith href "/" then "https://www.indeed.com" ++ href else href
    let company_element :=
      selOne card [⟨"span", some "companyName"⟩] <|>
      selOne card [⟨"span", some "company"⟩] <|>
      selOne card [⟨"div", some "company"⟩]
    let company := match company_element with | some e => getTextStrip e | none => ""
    let location_element :=
      selOne card [⟨"div", some "companyLocation"⟩] <|>
      selOne card [⟨"div", some "location"⟩] <|>
      selOne card [⟨"span", some "location"⟩]
    let location := match location_element with | some e => getTextStrip e | none => ""
    let summary_element :=
      selOne card [⟨"div", some "job-snippet"⟩] <|>
      selOne card [⟨"div", some "summary"⟩]
    let summary := match summary_element with | some e => normSpace (getTextSep " " e) | none => ""
    let posted_element :=
      selOne card [⟨"span", some "date"⟩] <|>
      selOne card [⟨"span", some "datePosted"⟩]
    let posted_raw := match posted_element with | some e => getTextStrip e | none => ""
    some { source := "indeed", title := title, company := company, location := location,
           url := url, summary := summary, posted_raw := posted_raw,
           scraped_at := now, search_term := search_term }

/-- Embedding of `parse_indeed_jobs`; `now` is the `datetime.utcnow()`
timestamp captured at the start of the call. -/
def parse_indeed_jobs (html : Html) (search_term : String) (now : String) : List JobPosting :=
  (indeed_cards html).filterMap (indeedCard search_term now)

/-- Google SERP result blocks: `soup.select("div.g")`. -/
def google_results (html : Html) : List Node :=
  select (docRoot html) [⟨"div", some "g"⟩]

/-- Does a Google result block carry the identity `parse_google_jobs`
requires: a link, a title, and an href containing `linkedin.com/jobs`? -/
def googleIdentity (r : Node) : Bool :=
  match selOne r [⟨"a", none⟩], selOne r [⟨"h3", none⟩] with
  | some link, some _ => strIn "linkedin.com/jobs" ((link.getAttr "href").getD "")
  | _, _ => false

/-- The record `parse_google_jobs` builds from one result block, `none`
when the block is skipped (missing link/title, or href not a LinkedIn
jobs URL). -/
def googleResult (search_term : String) (now : String) (r : Node) : Option JobPosting :=
  let link := selOne r [⟨"a", none⟩]
  let title_el := selOne r [⟨"h3", none⟩]
  let snippet_el := selOne r [⟨"div", some "VwiC3b"⟩] <|> selOne r [⟨"span", some "aCOpRe"⟩]
  match link, title_el with
  | some link, some title_el =>
    let url := (link.getAttr "href").getD ""
    if strIn "linkedin.com/jobs" url then
      some { source := "google_linkedin", title := getTextStrip title_el, company := "",
             location := "", url := url,
             summary := (match snippet_el with | some e => getTextSep " " e | none => ""),
             posted_raw := "", scraped_at := now, search_term := search_term }
    else none
  | _, _ => none

/-- Embedding of `parse_google_jobs`. -/
def parse_google_jobs (html : Html) (search_term : String) (now : String) : List JobPosting :=
  (google_results html).filterMap (googleResult search_term now)

/-- LinkedIn card containers: `soup.select("div.base-card")`. -/
def linkedin_cards (html : Html) : List Node :=
  select (docRoot html) [⟨"div", some "base-card"⟩]

/-- The full-card link anchor of a LinkedIn card:
`card.select_one("a.base-card__full-link")`. -/
def linkedinAnchor (card : Node) : Option Node :=
  selOne card [⟨"a", some "base-card__full-link"⟩]

/-- The record `parse_linkedin_jobs` builds from one card, `none` when the
card is skipped (`if not link_el: continue`). -/
def linkedinCard (search_term : String) (now : String) (card : Node) : Option JobPosting :=
  match linkedinAnchor card with
  | none => none
  | some link_el =>
    let url := takeUntilChar ((link_el.getAttr "href").getD "") '?'
    let title_el := selOne card [⟨"h3", some "base-search-card__title"⟩]
    let company_el := selOne card [⟨"h4", some "base-search-card__subtitle"⟩]
    let location_el := selOne card [⟨"span", some "job-search-card__location"⟩]
    let summary_el := selOne card [⟨"p", some "base-search-card__snippet"⟩]
    let posted_el := selOne card [⟨"time", none⟩]
    some { source := "linkedin",
           title := (match title_el with | some e => getTextStrip e | none => ""),
           company := (match company_el with | some e => getTextStrip e | none => ""),
           location := (match location_el with | some e => getTextStrip e | none => ""),
           url := url,
           summary := (match summary_el with | some e => getTextStrip e | none => ""),
           posted_raw := (match posted_el with | some e => getTextStrip e | none => ""),
           scraped_at := now, search_term := search_term }

/-- Embedding of `parse_linkedin_jobs`. -/
def parse_linkedin_jobs (html : Html) (search_term : String) (now : String) : List JobPosting :=
  (linkedin_cards html).filterMap (linkedinCard search_term now)

/-- Generic page loop shared by the Google and LinkedIn paginators
(`for page in range(max_pages)` with `try/except ... break` around the
fetch): build the page URL, fetch it, stop on a transport error or on an
empty extraction, otherwise accumulate and continue.  The first component
is the value the Python function returns; the second instruments the loop
with the list of URLs actually fetched, in order, so that "no fetch is
issued" properties can be stated. -/
def paginateCatch (fetch : Fetch) (pageUrl : Nat → String)
    (extract : Html → List JobPosting) :
    Nat → Nat → List JobPosting → List JobPosting × List String
  | 0, _, acc => (acc, [])
  | fuel + 1, page, acc =>
    let url := pageUrl page
    match fetch url with
    | Except.error _ => (acc, [url])
    | Except.ok html =>
      let page_postings := extract html
      if page_postings.isEmpty then (acc, [url])
      else
        let r := paginateCatch fetch pageUrl extract fuel (page + 1) (acc ++ page_postings)
        (r.1, url :: r.2)

/-- Page loop of the Indeed (Selenium) paginator.  Identical to
`paginateCatch` except that `search_indeed_for_term` has no `except`
clause (only `try/finally` releasing the driver), so a fetch failure
propagates out of the loop: the result is `Except.error` instead of the
accumulated records. -/
def paginateRaise (fetch : Fetch) (pageUrl : Nat → String)
    (extract : Html → List JobPosting) :
    Nat → Nat → List JobPosting → Except TransportError (List JobPosting) × List String
  | 0, _, acc => (Except.ok acc, [])
  | fuel + 1, page, acc =>
    let url := pageUrl page
    match fetch url with
    | Except.error e => (Except.error e, [url])
    | Except.ok html =>
      let page_postings := extract html
      if page_postings.isEmpty then (Except.ok acc, [url])
      else
        let r := paginateRaise fetch pageUrl extract fuel (page + 1) (acc ++ page_postings)
        (r.1, url :: r.2)

/-- Embedding of `search_indeed_for_term`, instrumented with the fetched
URL list.  Page `page` is fetched at `build_indeed_url term location
(page * 10)` (`start = page * 10`). -/
def search_indeed_run (fetch : Fetch) (term : String) (location : String)
    (max_pages : Nat) (now : String) :
    Except TransportError (List JobPosting) × List String :=
  paginateRaise fetch (fun page => build_indeed_url term location (page * 10))
    (fun html => parse_indeed_jobs html term now) max_pages 0 []

/-- Embedding of `search_indeed_for_term`: the value the call produces —
the accumulated postings, or the propagated fetch exception. -/
def search_indeed_for_term (fetch : Fetch) (term : String) (location : String)
    (max_pages : Nat) (now : String) : Except TransportError (List JobPosting) :=
  (search_indeed_run fetch term location max_pages now).1

/-- Embedding of `search_google_jobs_for_term`, instrumented with the
fetched URL list.  Page `page` is fetched at `build_google_jobs_url term
location (page * 10)` (`start = page * 10`). -/
def search_google_run (fetch : Fetch) (term : String) (location : String)
    (max_pages : Nat) (now : String) : List JobPosting × List String :=
  paginateCatch fetch (fun page => build_google_jobs_url term location (page * 10))
    (fun html => parse_google_jobs html term now) max_pages 0 []

/-- Embedding of `search_google_jobs_for_term`. -/
def search_google_jobs_for_term (fetch : Fetch) (term : String) (location : String)
    (max_pages : Nat) (now : String) : List JobPosting :=
  (search_google_run fetch term location max_pages now).1

/-- Embedding of `search_linkedin_for_term`, instrumented with the fetched
URL list.  Page `page` is fetched at `build_linkedin_url term location
page` (`pageNum = page`). -/
def search_linkedin_run (fetch : Fetch) (term : String) (location : String)
    (max_pages : Nat) (now : String) : List JobPosting × List String :=
  paginateCatch fetch (fun page => build_linkedin_url term location page)
    (fun html => parse_linkedin_jobs html term now) max_pages 0 []

/-- Embedding of `search_linkedin_for_term`. -/
def search_linkedin_for_term (fetch : Fetch) (term : String) (location : String)
    (max_pages : Nat) (now : String) : List JobPosting :=
  (search_linkedin_run fetch term location max_pages now).1

/-- The deduplication identity key: `(job.source, job.url)`. -/
def jobKey (j : JobPosting) : String × String :=
  (j.source, j.url)

/-- Worker of `deduplicate_jobs`: `seen` is the set of identity keys
already encountered (a Python `set`, embedded as the list of its
elements with membership as the only operation used). -/
def dedupGo (seen : List (String × String)) : List JobPosting → List JobPosting
  | [] => []
  | job :: jobs =>
    if jobKey job ∈ seen then dedupGo seen jobs
    else job :: dedupGo (jobKey job :: seen) jobs

/-- Embedding of `deduplicate_jobs`: keep the first record for each
`(source, url)` key, in input order. -/
def deduplicate_jobs (jobs : List JobPosting) : List JobPosting :=
  dedupGo [] jobs

/-- Specification-side deduplication, following the words of the spec: a record
is kept iff no record earlier in the input (the `pre` accumulator) shares
its `(source, url)` identity key, and kept records appear in input order. -/
def dedupeSpecGo (pre : List JobPosting) : List JobPosting → List JobPosting
  | [] => []
  | j :: js =>
    if pre.any (fun p => decide (jobKey p = jobKey j)) then dedupeSpecGo (pre ++ [j]) js
    else j :: dedupeSpecGo (pre ++ [j]) js

/-- Specification-side deduplication of a whole input list. -/
def dedupeSpec (records : List JobPosting) : List JobPosting :=
  dedupeSpecGo [] records

/-- A one-card Indeed result page used as a concrete test input: a
`div.job_seen_beacon` card whose `h2` holds the title/link anchor. -/
def indeedPage : Html :=
  [Node.elem "div" ["job_seen_beacon"] []
    [Node.elem "h2" [] []
      [Node.elem "a" [] [("href", "/viewjob?jk=1"), ("aria-label", "Engineer")] []]]]

/-- A one-result Google SERP page used as a concrete test input: a `div.g`
block whose link points into `linkedin.com/jobs`. -/
def googlePage : Html :=
  [Node.elem "div" ["g"] []
    [Node.elem "a" [] [("href", "https://www.linkedin.com/jobs/view/1")] [],
     Node.elem "h3" [] [] [Node.text "Security Engineer"]]]

/-- A Google SERP page with three result blocks, two linking to the
LinkedIn jobs path and one elsewhere (the discovery-source
scenario). -/
def googlePage3 : Html :=
  [Node.elem "div" ["g"] []
    [Node.elem "a" [] [("href", "https://www.linkedin.com/jobs/view/1")] [],
     Node.elem "h3" [] [] [Node.text "A"]],
   Node.elem "div" ["g"] []
    [Node.elem "a" [] [("href", "https://example.com/x")] [],
     Node.elem "h3" [] [] [Node.text "B"]],
   Node.elem "div" ["g"] []
    [Node.elem "a" [] [("href", "https://www.linkedin.com/jobs/view/2")] [],
     Node.elem "h3" [] [] [Node.text "C"]]]

/-- A one-card LinkedIn result page used as a concrete test input: a
`div.base-card` card with its `a.base-card__full-link` anchor. -/
def linkedinPage : Html :=
  [Node.elem "div" ["base-card"] []
    [Node.elem "a" ["base-card__full-link"]
      [("href", "https://www.linkedin.com/jobs/view/2?refId=abc")] []]]

/-- Every record emitted by `dedupGo` has a key outside `seen`. -/
lemma mem_dedupGo_not_seen :
    ∀ (l : List JobPosting) (seen : List (String × String)) (j : JobPosting),
      j ∈ dedupGo seen l → jobKey j ∉ seen := by
  intro l
  induction l with
  | nil => intro seen j hj; simp [dedupGo] at hj
  | cons job jobs ih =>
    intro seen j hj
    by_cases h : jobKey job ∈ seen
    · rw [dedupGo, if_pos h] at hj
      exact ih seen j hj
    · rw [dedupGo, if_neg h] at hj
      rcases List.mem_cons.mp hj with h1 | h1
      · subst h1; exact h
      · have := ih (jobKey job :: seen) j h1
        intro hc
        exact this (List.mem_cons_of_mem _ hc)

/-- The output of `dedupGo` has pairwise distinct identity keys. -/
lemma dedupGo_pairwise :
    ∀ (l : List JobPosting) (seen : List (String × String)),
      (dedupGo seen l).Pairwise (fun a b => jobKey a ≠ jobKey b) := by
  intro l
  induction l with
  | nil => intro seen; simp [dedupGo]
  | cons job jobs ih =>
    intro seen
    by_cases h : jobKey job ∈ seen
    · rw [dedupGo, if_pos h]; exact ih seen
    · rw [dedupGo, if_neg h]
      refine List.Pairwise.cons ?_ (ih _)
      intro b hb hkey
      have := mem_dedupGo_not_seen jobs (jobKey job :: seen) b hb
      exact this (by rw [← hkey]; exact List.mem_cons_self _ _)

/-- On an input whose keys are already pairwise distinct and disjoint from
`seen`, `dedupGo` is the identity. -/
lemma dedupGo_fixed :
    ∀ (l : List JobPosting) (seen : List (String × String)),
      l.Pairwise (fun a b => jobKey a ≠ jobKey b) →
      (∀ j ∈ l, jobKey j ∉ seen) →
      dedupGo seen l = l := by
  intro l
  induction l with
  | nil => intro seen _ _; rfl
  | cons job jobs ih =>
    intro seen hpw hout
    have hj : jobKey job ∉ seen := hout job (List.mem_cons_self _ _)
    rw [dedupGo, if_neg hj]
    congr 1
    refine ih _ (List.Pairwise.of_cons hpw) ?_
    intro j hjm hc
    rcases List.mem_cons.mp hc with h1 | h1
    · exact (List.pairwise_cons.mp hpw).1 j hjm h1.symm
    · exact hout j (List.mem_cons_of_mem _ hjm) h1

/-- `dedupGo` agrees with the specification-side first-occurrence filter
whenever `seen` holds exactly the keys of the records already traversed. -/
lemma dedupGo_eq_specGo :
    ∀ (l : List JobPosting) (seen : List (String × String)) (pre : List JobPosting),
      (∀ k, k ∈ seen ↔ (∃ p ∈ pre, jobKey p = k)) →
      dedupGo seen l = dedupeSpecGo pre l := by
  intro l
  induction l with
  | nil => intro seen pre _; rfl
  | cons job jobs ih =>
    intro seen pre hinv
    have hnext : ∀ k, k ∈ (jobKey job :: seen) ↔ (∃ p ∈ pre ++ [job], jobKey p = k) := by
      intro k
      simp only [List.mem_cons, hinv k, List.mem_append, List.mem_singleton,
        List.not_mem_nil, or_false]
      constructor
      · rintro (h | ⟨p, hp, hk⟩)
        · exact ⟨job, Or.inr rfl, h.symm⟩
        · exact ⟨p, Or.inl hp, hk⟩
      · rintro ⟨p, hp | hp, hk⟩
        · exact Or.inr ⟨p, hp, hk⟩
        · subst hp; exact Or.inl hk.symm
    by_cases h : jobKey job ∈ seen
    · have hany : pre.any (fun p => decide (jobKey p = jobKey job)) = true := by
        rcases (hinv (jobKey job)).mp h with ⟨p, hp, hk⟩
        exact List.any_eq_true.mpr ⟨p, hp, by simpa using hk⟩
      rw [dedupGo, if_pos h, dedupeSpecGo, if_pos hany]
      refine ih seen (pre ++ [job]) ?_
      intro k
      rw [hinv k]
      constructor
      · rintro ⟨p, hp, hk⟩; exact ⟨p, List.mem_append_left _ hp, hk⟩
      · rintro ⟨p, hp, hk⟩
        rcases List.mem_append.mp hp with h1 | h1
        · exact ⟨p, h1, hk⟩
        · rw [List.mem_singleton.mp h1] at hk
          subst hk
          exact (hinv (jobKey job)).mp h
    · have hany : pre.any (fun p => decide (jobKey p = jobKey job)) = false := by
        rw [List.any_eq_false]
        intro p hp
        simp only [decide_eq_true_eq]
        intro hk
        exact h ((hinv (jobKey job)).mpr ⟨p, hp, hk⟩)
      rw [dedupGo, if_neg h, dedupeSpecGo, if_neg (by simp [hany])]
      congr 1
      exact ih (jobKey job :: seen) (pre ++ [job]) hnext

/-- C5: any two distinct records in the output of `deduplicate_jobs` have
different `(source, url)` identity keys. -/
theorem dedup_identity_unique (jobs : List JobPosting) :
    (deduplicate_jobs jobs).Pairwise
      (fun r1 r2 => (r1.source, r1.url) ≠ (r2.source, r2.url)) := by
  have h := dedupGo_pairwise jobs []
  simpa [deduplicate_jobs, jobKey] using h

/-- C6: `deduplicate_jobs` is stable: it returns exactly the first
occurrence (in input order) of each `(source, url)` key, the retained
records keeping their relative input order — the specification-side
first-occurrence filter `dedupeSpec`. -/
theorem dedup_first_occurrence (jobs : List JobPosting) :
    deduplicate_jobs jobs = dedupeSpec jobs :=
  dedupGo_eq_specGo jobs [] [] (by simp)

/-- C7: `deduplicate_jobs` is idempotent. -/
theorem dedup_idempotent (jobs : List JobPosting) :
    deduplicate_jobs (deduplicate_jobs jobs) = deduplicate_jobs jobs := by
  unfold deduplicate_jobs
  exact dedupGo_fixed (dedupGo [] jobs) [] (dedupGo_pairwise jobs []) (by simp)

/-- Counting a `filterMap` output counts the inputs mapped to `some`. -/
lemma length_filterMap_eq_countP {α β : Type} (f : α → Option β) :
    ∀ l : List α, (l.filterMap f).length = l.countP (fun a => (f a).isSome) := by
  intro l
  induction l with
  | nil => rfl
  | cons a l ih =>
    cases h : f a with
    | none => simp [List.filterMap_cons, h, List.countP_cons, ih]
    | some b => simp [List.filterMap_cons, h, List.countP_cons, ih]

/-- C4: an extractor builds a record for a candidate card exactly when the
card carries its minimum viable identity — for Indeed the `h2 a` /
`h2.jobTitle a` title anchor, for Google a link and a title whose href
contains the LinkedIn jobs path, for LinkedIn the
`a.base-card__full-link` anchor — and candidates lacking it contribute no
record (the extractors are total, so no error is possible). -/
theorem record_requires_identity (html : Html) (term now : String) :
    ((∀ card, (indeedCard term now card).isSome = (indeedAnchor card).isSome) ∧
      (parse_indeed_jobs html term now).length
        = (indeed_cards html).countP (fun card => (indeedAnchor card).isSome)) ∧
    ((∀ r, (googleResult term now r).isSome = googleIdentity r) ∧
      (parse_google_jobs html term now).length
        = (google_results html).countP googleIdentity) ∧
    ((∀ card, (linkedinCard term now card).isSome = (linkedinAnchor card).isSome) ∧
      (parse_linkedin_jobs html term now).length
        = (linkedin_cards html).countP (fun card => (linkedinAnchor card).isSome)) := by
  have hindeed : ∀ card, (indeedCard term now card).isSome = (indeedAnchor card).isSome := by
    intro card
    cases h : indeedAnchor card with
    | none => simp [indeedCard, h]
    | some e => simp [indeedCard, h]
  have hgoogle : ∀ r, (googleResult term now r).isSome = googleIdentity r := by
    intro r
    cases h1 : selOne r [⟨"a", none⟩] with
    | none => simp [googleResult, googleIdentity, h1]
    | some link =>
      cases h2 : selOne r [⟨"h3", none⟩] with
      | none => simp [googleResult, googleIdentity, h1, h2]
      | some title_el =>
        simp only [googleResult, googleIdentity, h1, h2]
        cases h3 : strIn "linkedin.com/jobs" ((link.getAttr "href").getD "") with
        | false => simp [h3]
        | true => simp [h3]
  have hlinkedin : ∀ card, (linkedinCard term now card).isSome = (linkedinAnchor card).isSome := by
    intro card
    cases h : linkedinAnchor card with
    | none => simp [linkedinCard, h]
    | some e => simp [linkedinCard, h]
  refine ⟨⟨hindeed, ?_⟩, ⟨hgoogle, ?_⟩, ⟨hlinkedin, ?_⟩⟩
  · rw [parse_indeed_jobs, length_filterMap_eq_countP]
    exact List.countP_congr (fun card _ => by rw [hindeed card])
  · rw [parse_google_jobs, length_filterMap_eq_countP]
    exact List.countP_congr (fun r _ => by rw [hgoogle r])
  · rw [parse_linkedin_jobs, length_filterMap_eq_countP]
    exact List.countP_congr (fun card _ => by rw [hlinkedin card])

/-- C8: every record the Google extractor emits has a URL containing the
LinkedIn job-posting path, and on a page with three result blocks of
which two link into that path, exactly two records are produced. -/
theorem google_urls_filtered :
    (∀ (html : Html) (term now : String) (r : JobPosting),
        r ∈ parse_google_jobs html term now →
        strIn "linkedin.com/jobs" r.url = true) ∧
    (parse_google_jobs googlePage3 "q" "now").length = 2 := by
  constructor
  · intro html term now r hr
    rw [parse_google_jobs] at hr
    rcases List.mem_filterMap.mp hr with ⟨a, _, hf⟩
    cases h1 : selOne a [⟨"a", none⟩] with
    | none => simp [googleResult, h1] at hf
    | some link =>
      cases h2 : selOne a [⟨"h3", none⟩] with
      | none => simp [googleResult, h1, h2] at hf
      | some title_el =>
        simp only [googleResult, h1, h2] at hf
        split at hf
        · rename_i hcond
          cases hf
          simpa using hcond
        · exact absurd hf (by simp)
  · decide

/-- C10: fixed fields of every Google-extractor record: empty company,
location and posted time, the discovery source tag, and the provenance
fields echoing the timestamp and term of the call. -/
theorem google_record_fields (html : Html) (term now : String) (r : JobPosting)
    (hr : r ∈ parse_google_jobs html term now) :
    r.source = "google_linkedin" ∧ r.company = "" ∧ r.location = "" ∧
    r.posted_raw = "" ∧ r.scraped_at = now ∧ r.search_term = term := by
  rw [parse_google_jobs] at hr
  rcases List.mem_filterMap.mp hr with ⟨a, _, hf⟩
  cases h1 : selOne a [⟨"a", none⟩] with
  | none => simp [googleResult, h1] at hf
  | some link =>
    cases h2 : selOne a [⟨"h3", none⟩] with
    | none => simp [googleResult, h1, h2] at hf
    | some title_el =>
      simp only [googleResult, h1, h2] at hf
      split at hf
      · cases hf
        exact ⟨rfl, rfl, rfl, rfl, rfl, rfl⟩
      · exact absurd hf (by simp)

/-- The record `parse_google_jobs` extracts from `googlePage` at term
`"q"` and capture time `"T"`. -/
def googleRec1 : JobPosting :=
  { source := "google_linkedin", title := "Security Engineer", company := "",
    location := "", url := "https://www.linkedin.com/jobs/view/1", summary := "",
    posted_raw := "", scraped_at := "T", search_term := "q" }

/-- Witness for C10 at a concrete page and record. -/
theorem google_record_fields_witness :
    googleRec1.company = "" ∧ googleRec1.source = "google_linkedin" :=
  let h := google_record_fields googlePage "q" "T" googleRec1 (by decide)
  ⟨h.2.1, h.1⟩

/-- Witness for C8 at a concrete page and record. -/
theorem google_urls_filtered_witness :
    strIn "linkedin.com/jobs" googleRec1.url = true :=
  google_urls_filtered.1 googlePage "q" "T" googleRec1 (by decide)

/-- Erase the timestamp field, the only field of a record that does not
depend on `(pageContent, searchTerm)`. -/
def eraseScrapedAt (j : JobPosting) : JobPosting :=
  { j with scraped_at := "" }

/-- Counterexample to C1 as stated: the extractors read the clock
(`datetime.utcnow()`), so two invocations of `parse_indeed_jobs` on the
same `(pageContent, searchTerm)` at different capture times return
records that are not field-for-field identical (`scraped_at` differs). -/
theorem extract_not_pure_cex :
    parse_indeed_jobs indeedPage "q" "t1" ≠ parse_indeed_jobs indeedPage "q" "t2" := by
  decide

/-- C1 amended: each extractor is a pure function of `(pageContent,
searchTerm, captureTime)`; every field except `scraped_at` is determined
by `(pageContent, searchTerm)` alone, and `scraped_at` is exactly the
capture time, shared by all records of the invocation. -/
theorem extract_deterministic_with_time :
    (∀ (html : Html) (term t1 t2 : String),
        (parse_indeed_jobs html term t1).map eraseScrapedAt
          = (parse_indeed_jobs html term t2).map eraseScrapedAt ∧
        (parse_google_jobs html term t1).map eraseScrapedAt
          = (parse_google_jobs html term t2).map eraseScrapedAt ∧
        (parse_linkedin_jobs html term t1).map eraseScrapedAt
          = (parse_linkedin_jobs html term t2).map eraseScrapedAt) ∧
    (∀ (html : Html) (term t : String) (r : JobPosting),
        (r ∈ parse_indeed_jobs html term t ∨ r ∈ parse_google_jobs html term t ∨
          r ∈ parse_linkedin_jobs html term t) → r.scraped_at = t) := by
  constructor
  · intro html term t1 t2
    refine ⟨?_, ?_, ?_⟩
    · rw [parse_indeed_jobs, parse_indeed_jobs, List.map_filterMap, List.map_filterMap]
      congr 1
      funext card
      cases h : indeedAnchor card with
      | none => simp [indeedCard, h]
      | some e => simp [indeedCard, h, eraseScrapedAt]
    · rw [parse_google_jobs, parse_google_jobs, List.map_filterMap, List.map_filterMap]
      congr 1
      funext rblock
      cases h1 : selOne rblock [⟨"a", none⟩] with
      | none => simp [googleResult, h1]
      | some link =>
        cases h2 : selOne rblock [⟨"h3", none⟩] with
        | none => simp [googleResult, h1, h2]
        | some title_el =>
          simp only [googleResult, h1, h2]
          cases h3 : strIn "linkedin.com/jobs" ((link.getAttr "href").getD "") with
          | false => simp [h3]
          | true => simp [h3, eraseScrapedAt]
    · rw [parse_linkedin_jobs, parse_linkedin_jobs, List.map_filterMap, List.map_filterMap]
      congr 1
      funext card
      cases h : linkedinAnchor card with
      | none => simp [linkedinCard, h]
      | some e => simp [linkedinCard, h, eraseScrapedAt]
  · intro html term t r hr
    rcases hr with hr | hr | hr
    · rw [parse_indeed_jobs] at hr
      rcases List.mem_filterMap.mp hr with ⟨card, _, hf⟩
      cases h : indeedAnchor card with
      | none => simp [indeedCard, h] at hf
      | some e =>
        simp only [indeedCard, h] at hf
        cases hf
        rfl
    · exact (google_record_fields html term t r hr).2.2.2.2.1
    · rw [parse_linkedin_jobs] at hr
      rcases List.mem_filterMap.mp hr with ⟨card, _, hf⟩
      cases h : linkedinAnchor card with
      | none => simp [linkedinCard, h] at hf
      | some e =>
        simp only [linkedinCard, h] at hf
        cases hf
        rfl

/-- The record `parse_indeed_jobs` extracts from `indeedPage` at term
`"q"` and capture time `"T"`. -/
def indeedRec1 : JobPosting :=
  { source := "indeed", title := "Engineer", company := "", location := "",
    url := "https://www.indeed.com/viewjob?jk=1", summary := "", posted_raw := "",
    scraped_at := "T", search_term := "q" }

/-- Witness for the amended C1 at a concrete page, term and time. -/
theorem extract_deterministic_with_time_witness :
    indeedRec1.scraped_at = "T" :=
  extract_deterministic_with_time.2 indeedPage "q" "T" indeedRec1 (Or.inl (by decide))

/-- A nonempty list has `isEmpty = false`. -/
lemma isEmpty_false_of_ne_nil {α : Type} {l : List α} (h : l ≠ []) : l.isEmpty = false := by
  cases l with
  | nil => exact absurd rfl h
  | cons a l => rfl

/-- `paginateCatch` run from page `p`, when pages `p..k-1` fetch and
extract nonempty and page `k` fetches but extracts nothing, returns the
accumulator followed by the extractions of pages `p..k-1`, having fetched
exactly the URLs of pages `p..k`. -/
lemma paginateCatch_stop_empty (fetch : Fetch) (pageUrl : Nat → String)
    (extract : Html → List JobPosting) (pages : Nat → Html) (k : Nat)
    (hok : ∀ i, i ≤ k → fetch (pageUrl i) = Except.ok (pages i))
    (hne : ∀ i, i < k → extract (pages i) ≠ [])
    (hk : extract (pages k) = []) :
    ∀ fuel p acc, p ≤ k → k < p + fuel →
      paginateCatch fetch pageUrl extract fuel p acc
        = (acc ++ ((List.range' p (k - p)).map (fun i => extract (pages i))).flatten,
           (List.range' p (k - p + 1)).map pageUrl) := by
  intro fuel
  induction fuel with
  | zero => intro p acc hp hlt; omega
  | succ fuel ih =>
    intro p acc hp hlt
    by_cases hpk : p = k
    · subst hpk
      simp only [paginateCatch]
      rw [hok p le_rfl]
      simp [hk, List.range'_succ]
    · have hpk' : p < k := lt_of_le_of_ne hp hpk
      simp only [paginateCatch]
      rw [hok p (le_of_lt hpk')]
      simp only [isEmpty_false_of_ne_nil (hne p hpk'), if_false]
      rw [ih (p + 1) (acc ++ extract (pages p)) (by omega) (by omega)]
      have h1 : k - p = (k - (p + 1)) + 1 := by omega
      rw [h1]
      simp [List.range'_succ, List.append_assoc]

/-- `paginateRaise` analogue of `paginateCatch_stop_empty`. -/
lemma paginateRaise_stop_empty (fetch : Fetch) (pageUrl : Nat → String)
    (extract : Html → List JobPosting) (pages : Nat → Html) (k : Nat)
    (hok : ∀ i, i ≤ k → fetch (pageUrl i) = Except.ok (pages i))
    (hne : ∀ i, i < k → extract (pages i) ≠ [])
    (hk : extract (pages k) = []) :
    ∀ fuel p acc, p ≤ k → k < p + fuel →
      paginateRaise fetch pageUrl extract fuel p acc
        = (Except.ok (acc ++ ((List.range' p (k - p)).map (fun i => extract (pages i))).flatten),
           (List.range' p (k - p + 1)).map pageUrl) := by
  intro fuel
  induction fuel with
  | zero => intro p acc hp hlt; omega
  | succ fuel ih =>
    intro p acc hp hlt
    by_cases hpk : p = k
    · subst hpk
      simp only [paginateRaise]
      rw [hok p le_rfl]
      simp [hk, List.range'_succ]
    · have hpk' : p < k := lt_of_le_of_ne hp hpk
      simp only [paginateRaise]
      rw [hok p (le_of_lt hpk')]
      simp only [isEmpty_false_of_ne_nil (hne p hpk'), if_false]
      rw [ih (p + 1) (acc ++ extract (pages p)) (by omega) (by omega)]
      have h1 : k - p = (k - (p + 1)) + 1 := by omega
      rw [h1]
      simp [List.range'_succ, List.append_assoc]

/-- `paginateCatch` run from page `p`, when pages `p..k-1` fetch and
extract nonempty and the fetch of page `k` fails, swallows the error:
it returns the records accumulated so far, having fetched exactly the
URLs of pages `p..k`. -/
lemma paginateCatch_stop_error (fetch : Fetch) (pageUrl : Nat → String)
    (extract : Html → List JobPosting) (pages : Nat → Html) (k : Nat)
    (e : TransportError)
    (hok : ∀ i, i < k → fetch (pageUrl i) = Except.ok (pages i))
    (hne : ∀ i, i < k → extract (pages i) ≠ [])
    (herr : fetch (pageUrl k) = Except.error e) :
    ∀ fuel p acc, p ≤ k → k < p + fuel →
      paginateCatch fetch pageUrl extract fuel p acc
        = (acc ++ ((List.range' p (k - p)).map (fun i => extract (pages i))).flatten,
           (List.range' p (k - p + 1)).map pageUrl) := by
  intro fuel
  induction fuel with
  | zero => intro p acc hp hlt; omega
  | succ fuel ih =>
    intro p acc hp hlt
    by_cases hpk : p = k
    · subst hpk
      simp only [paginateCatch]
      rw [herr]
      simp [List.range'_succ]
    · have hpk' : p < k := lt_of_le_of_ne hp hpk
      simp only [paginateCatch]
      rw [hok p hpk']
      simp only [isEmpty_false_of_ne_nil (hne p hpk'), if_false]
      rw [ih (p + 1) (acc ++ extract (pages p)) (by omega) (by omega)]
      have h1 : k - p = (k - (p + 1)) + 1 := by omega
      rw [h1]
      simp [List.range'_succ, List.append_assoc]

/-- `paginateRaise` run from page `p`, when pages `p..k-1` fetch and
extract nonempty and the fetch of page `k` fails, propagates the error
(there is no `except` clause), having fetched the URLs of pages `p..k`. -/
lemma paginateRaise_stop_error (fetch : Fetch) (pageUrl : Nat → String)
    (extract : Html → List JobPosting) (pages : Nat → Html) (k : Nat)
    (e : TransportError)
    (hok : ∀ i, i < k → fetch (pageUrl i) = Except.ok (pages i))
    (hne : ∀ i, i < k → extract (pages i) ≠ [])
    (herr : fetch (pageUrl k) = Except.error e) :
    ∀ fuel p acc, p ≤ k → k < p + fuel →
      paginateRaise fetch pageUrl extract fuel p acc
        = (Except.error e, (List.range' p (k - p + 1)).map pageUrl) := by
  intro fuel
  induction fuel with
  | zero => intro p acc hp hlt; omega
  | succ fuel ih =>
    intro p acc hp hlt
    by_cases hpk : p = k
    · subst hpk
      simp only [paginateRaise]
      rw [herr]
      simp [List.range'_succ]
    · have hpk' : p < k := lt_of_le_of_ne hp hpk
      simp only [paginateRaise]
      rw [hok p hpk']
      simp only [isEmpty_false_of_ne_nil (hne p hpk'), if_false]
      rw [ih (p + 1) (acc ++ extract (pages p)) (by omega) (by omega)]
      have h2 : k - p + 1 = (k - (p + 1) + 1) + 1 := by omega
      rw [h2]
      simp [List.range'_succ]

/-- The URLs `paginateCatch` fetches are always an initial run of the
page-URL sequence starting at its first page. -/
lemma paginateCatch_fetched (fetch : Fetch) (pageUrl : Nat → String)
    (extract : Html → List JobPosting) :
    ∀ fuel p acc, ∃ j, j ≤ fuel ∧
      (paginateCatch fetch pageUrl extract fuel p acc).2 = (List.range' p j).map pageUrl := by
  intro fuel
  induction fuel with
  | zero => intro p acc; exact ⟨0, le_rfl, rfl⟩
  | succ fuel ih =>
    intro p acc
    simp only [paginateCatch]
    cases hf : fetch (pageUrl p) with
    | error e => exact ⟨1, by omega, by simp [List.range'_succ]⟩
    | ok html =>
      by_cases he : (extract html).isEmpty
      · exact ⟨1, by omega, by simp [he, List.range'_succ]⟩
      · obtain ⟨j, hj, h2⟩ := ih (p + 1) (acc ++ extract html)
        refine ⟨j + 1, by omega, ?_⟩
        simp [he, h2, List.range'_succ]

/-- The URLs `paginateRaise` fetches are always an initial run of the
page-URL sequence starting at its first page. -/
lemma paginateRaise_fetched (fetch : Fetch) (pageUrl : Nat → String)
    (extract : Html → List JobPosting) :
    ∀ fuel p acc, ∃ j, j ≤ fuel ∧
      (paginateRaise fetch pageUrl extract fuel p acc).2 = (List.range' p j).map pageUrl := by
  intro fuel
  induction fuel with
  | zero => intro p acc; exact ⟨0, le_rfl, rfl⟩
  | succ fuel ih =>
    intro p acc
    simp only [paginateRaise]
    cases hf : fetch (pageUrl p) with
    | error e => exact ⟨1, by omega, by simp [List.range'_succ]⟩
    | ok html =>
      by_cases he : (extract html).isEmpty
      · exact ⟨1, by omega, by simp [he, List.range'_succ]⟩
      · obtain ⟨j, hj, h2⟩ := ih (p + 1) (acc ++ extract html)
        refine ⟨j + 1, by omega, ?_⟩
        simp [he, h2, List.range'_succ]

/-- Decimal digit characters produced by `Nat.digitChar` below base 10. -/
lemma digitChar_isDigit : ∀ m, m < 10 → (Nat.digitChar m).isDigit = true := by
  decide

/-- `Nat.toDigitsCore` at base 10 only prepends decimal digit characters. -/
lemma toDigitsCore_digits :
    ∀ (fuel n : Nat) (ds : List Char), (∀ c ∈ ds, c.isDigit = true) →
      ∀ c ∈ Nat.toDigitsCore 10 fuel n ds, c.isDigit = true := by
  intro fuel
  induction fuel with
  | zero =>
    intro n ds h c hc
    simp only [Nat.toDigitsCore] at hc
    exact h c hc
  | succ fuel ih =>
    intro n ds h c hc
    have hds : ∀ c ∈ (Nat.digitChar (n % 10) :: ds), c.isDigit = true := by
      intro c hc'
      rcases List.mem_cons.mp hc' with h1 | h1
      · subst h1; exact digitChar_isDigit _ (Nat.mod_lt _ (by omega))
      · exact h c h1
    by_cases h0 : n / 10 = 0
    · simp only [Nat.toDigitsCore, h0, if_true] at hc
      exact hds c hc
    · simp only [Nat.toDigitsCore, h0, if_false] at hc
      exact ih (n / 10) _ hds c hc

/-- Every character of the decimal rendering of a natural number is a
digit. -/
lemma natRepr_all_digits (n : Nat) : ∀ c ∈ (Nat.repr n).data, c.isDigit = true := by
  intro c hc
  have hrepr : (Nat.repr n).data = Nat.toDigitsCore 10 (n + 1) n [] := rfl
  rw [hrepr] at hc
  exact toDigitsCore_digits (n + 1) n [] (by intro c hc'; simp at hc') c hc

/-- Digits are unreserved, hence left alone by percent-encoding. -/
lemma isDigit_unreserved (c : Char) (h : c.isDigit = true) :
    isUnreservedOrSafe c = true := by
  simp [isUnreservedOrSafe, Char.isAlphanum, h]

/-- `quoteCore` leaves a fully-unreserved character list unchanged. -/
lemma quoteCore_id :
    ∀ l : List Char, (∀ c ∈ l, isUnreservedOrSafe c = true) → quoteCore l = l := by
  intro l
  induction l with
  | nil => intro _; rfl
  | cons c cs ih =>
    intro h
    simp [quoteCore, h c (List.mem_cons_self _ _),
      ih (fun c hc => h c (List.mem_cons_of_mem _ hc))]

/-- Percent-encoding leaves the decimal rendering of a natural number
unchanged. -/
lemma quote_toString_nat (n : Nat) : quote (toString n) = toString n := by
  show quote (Nat.repr n) = Nat.repr n
  rw [quote, quoteCore_id _ (fun c hc => isDigit_unreserved c (natRepr_all_digits n c hc))]

/-- C9: each URL builder follows the query-encoding convention of its source —
the board source and the LinkedIn-discovery search both carry the page as
a `start` offset (`start = page * 10`, 10 per page, written as plain
decimal digits), and the network-search variant carries an explicit
`pageNum` page-number parameter — and each paginator fetches, at step
`p`, exactly the URL its builder produces for page `p` (offset `p * 10`
for the board and discovery sources, page number `p` for the network
source). -/
theorem url_conventions :
    (∀ (q l : String) (s : Nat),
        build_indeed_url q l s
          = "https://www.indeed.com/jobs?"
              ++ ("q=" ++ quote q ++ "&" ++ ("l=" ++ quote l) ++ "&"
                  ++ ("start=" ++ toString s))) ∧
    (∀ (q l : String) (s : Nat),
        build_google_jobs_url q l s
          = "https://www.google.com/search?"
              ++ ("q=" ++ quote ("site:linkedin.com/jobs/ \"" ++ q ++ "\" " ++ l) ++ "&"
                  ++ ("start=" ++ toString s))) ∧
    (∀ (q l : String) (p : Nat),
        build_linkedin_url q l p
          = "https://www.linkedin.com/jobs/search?"
              ++ ("keywords=" ++ quote q ++ "&" ++ ("location=" ++ quote l) ++ "&"
                  ++ "position=1" ++ "&" ++ ("pageNum=" ++ toString p))) ∧
    (∀ (fetch : Fetch) (term loc now : String) (mp : Nat),
        (∃ j, j ≤ mp ∧ (search_indeed_run fetch term loc mp now).2
            = (List.range j).map (fun p => build_indeed_url term loc (p * 10))) ∧
        (∃ j, j ≤ mp ∧ (search_google_run fetch term loc mp now).2
            = (List.range j).map (fun p => build_google_jobs_url term loc (p * 10))) ∧
        (∃ j, j ≤ mp ∧ (search_linkedin_run fetch term loc mp now).2
            = (List.range j).map (fun p => build_linkedin_url term loc p))) := by
  refine ⟨?_, ?_, ?_, ?_⟩
  · intro q l s
    rw [← quote_toString_nat s]
    rfl
  · intro q l s
    rw [← quote_toString_nat s]
    rfl
  · intro q l p
    rw [← quote_toString_nat p]
    rfl
  · intro fetch term loc now mp
    refine ⟨?_, ?_, ?_⟩
    · obtain ⟨j, hj, h2⟩ := paginateRaise_fetched fetch
        (fun p => build_indeed_url term loc (p * 10))
        (fun html => parse_indeed_jobs html term now) mp 0 []
      exact ⟨j, hj, by rw [List.range_eq_range']; exact h2⟩
    · obtain ⟨j, hj, h2⟩ := paginateCatch_fetched fetch
        (fun p => build_google_jobs_url term loc (p * 10))
        (fun html => parse_google_jobs html term now) mp 0 []
      exact ⟨j, hj, by rw [List.range_eq_range']; exact h2⟩
    · obtain ⟨j, hj, h2⟩ := paginateCatch_fetched fetch
        (fun p => build_linkedin_url term loc p)
        (fun html => parse_linkedin_jobs html term now) mp 0 []
      exact ⟨j, hj, by rw [List.range_eq_range']; exact h2⟩

/-- C3: for every paginator, if pages `0..k-1` fetch and extract nonempty
and page `k` is the first page extracting zero records, a run with
`maxPages > k` returns exactly the concatenation of the records of pages
`0..k-1` (for Indeed, wrapped in `Except.ok`), and the fetched URLs are
exactly those of pages `0..k` — no fetch is issued for any page after
`k`. -/
theorem stop_on_empty (fetch : Fetch) (term loc now : String) (k mp : Nat)
    (pI pG pL : Nat → Html)
    (hIok : ∀ i, i ≤ k → fetch (build_indeed_url term loc (i * 10)) = Except.ok (pI i))
    (hIne : ∀ i, i < k → parse_indeed_jobs (pI i) term now ≠ [])
    (hIk : parse_indeed_jobs (pI k) term now = [])
    (hGok : ∀ i, i ≤ k → fetch (build_google_jobs_url term loc (i * 10)) = Except.ok (pG i))
    (hGne : ∀ i, i < k → parse_google_jobs (pG i) term now ≠ [])
    (hGk : parse_google_jobs (pG k) term now = [])
    (hLok : ∀ i, i ≤ k → fetch (build_linkedin_url term loc i) = Except.ok (pL i))
    (hLne : ∀ i, i < k → parse_linkedin_jobs (pL i) term now ≠ [])
    (hLk : parse_linkedin_jobs (pL k) term now = [])
    (hmp : k < mp) :
    (search_indeed_for_term fetch term loc mp now
        = Except.ok (((List.range k).map (fun i => parse_indeed_jobs (pI i) term now)).flatten)
      ∧ (search_indeed_run fetch term loc mp now).2
          = (List.range (k + 1)).map (fun i => build_indeed_url term loc (i * 10))) ∧
    (search_google_jobs_for_term fetch term loc mp now
        = ((List.range k).map (fun i => parse_google_jobs (pG i) term now)).flatten
      ∧ (search_google_run fetch term loc mp now).2
          = (List.range (k + 1)).map (fun i => build_google_jobs_url term loc (i * 10))) ∧
    (search_linkedin_for_term fetch term loc mp now
        = ((List.range k).map (fun i => parse_linkedin_jobs (pL i) term now)).flatten
      ∧ (search_linkedin_run fetch term loc mp now).2
          = (List.range (k + 1)).map (fun i => build_linkedin_url term loc i)) := by
  have hI := paginateRaise_stop_empty fetch (fun p => build_indeed_url term loc (p * 10))
    (fun html => parse_indeed_jobs html term now) pI k hIok hIne hIk mp 0 []
    (Nat.zero_le k) (by omega)
  have hG := paginateCatch_stop_empty fetch (fun p => build_google_jobs_url term loc (p * 10))
    (fun html => parse_google_jobs html term now) pG k hGok hGne hGk mp 0 []
    (Nat.zero_le k) (by omega)
  have hL := paginateCatch_stop_empty fetch (fun p => build_linkedin_url term loc p)
    (fun html => parse_linkedin_jobs html term now) pL k hLok hLne hLk mp 0 []
    (Nat.zero_le k) (by omega)
  refine ⟨⟨?_, ?_⟩, ⟨?_, ?_⟩, ⟨?_, ?_⟩⟩
  · simp only [search_indeed_for_term, search_indeed_run]
    rw [hI]
    simp [List.range_eq_range']
  · simp only [search_indeed_run]
    rw [hI]
    simp [List.range_eq_range']
  · simp only [search_google_jobs_for_term, search_google_run]
    rw [hG]
    simp [List.range_eq_range']
  · simp only [search_google_run]
    rw [hG]
    simp [List.range_eq_range']
  · simp only [search_linkedin_for_term, search_linkedin_run]
    rw [hL]
    simp [List.range_eq_range']
  · simp only [search_linkedin_run]
    rw [hL]
    simp [List.range_eq_range']

/-- A fetch oracle for the stop-on-empty scenario: page 0 of each source
has one listing, every other URL renders a page with no cards. -/
def fetchW : Fetch := fun u =>
  if u = build_indeed_url "q" "loc" 0 then Except.ok indeedPage
  else if u = build_google_jobs_url "q" "loc" 0 then Except.ok googlePage
  else if u = build_linkedin_url "q" "loc" 0 then Except.ok linkedinPage
  else Except.ok []

/-- Page-content sequence `fetchW` serves the Indeed paginator. -/
def pagesIW : Nat → Html := fun i => if i = 0 then indeedPage else []

/-- Page-content sequence `fetchW` serves the Google paginator. -/
def pagesGW : Nat → Html := fun i => if i = 0 then googlePage else []

/-- Page-content sequence `fetchW` serves the LinkedIn paginator. -/
def pagesLW : Nat → Html := fun i => if i = 0 then linkedinPage else []

/-- Witness for C3: with one nonempty page and an empty page 1, each
paginator run with `maxPages = 2` returns the records of page 0 and fetches
only pages 0 and 1. -/
theorem stop_on_empty_witness :
    (search_indeed_for_term fetchW "q" "loc" 2 "T"
        = Except.ok (((List.range 1).map (fun i => parse_indeed_jobs (pagesIW i) "q" "T")).flatten)
      ∧ (search_indeed_run fetchW "q" "loc" 2 "T").2
          = (List.range 2).map (fun i => build_indeed_url "q" "loc" (i * 10))) ∧
    (search_google_jobs_for_term fetchW "q" "loc" 2 "T"
        = ((List.range 1).map (fun i => parse_google_jobs (pagesGW i) "q" "T")).flatten
      ∧ (search_google_run fetchW "q" "loc" 2 "T").2
          = (List.range 2).map (fun i => build_google_jobs_url "q" "loc" (i * 10))) ∧
    (search_linkedin_for_term fetchW "q" "loc" 2 "T"
        = ((List.range 1).map (fun i => parse_linkedin_jobs (pagesLW i) "q" "T")).flatten
      ∧ (search_linkedin_run fetchW "q" "loc" 2 "T").2
          = (List.range 2).map (fun i => build_linkedin_url "q" "loc" i)) :=
  stop_on_empty fetchW "q" "loc" "T" 1 2 pagesIW pagesGW pagesLW
    (by intro i hi; interval_cases i <;> rfl)
    (by intro i hi; interval_cases i; decide)
    (by decide)
    (by intro i hi; interval_cases i <;> rfl)
    (by intro i hi; interval_cases i; decide)
    (by decide)
    (by intro i hi; interval_cases i <;> rfl)
    (by intro i hi; interval_cases i; decide)
    (by decide)
    (by omega)

/-- Counterexample to C2 as stated: `search_indeed_for_term` has no
`except` clause (only `try/finally` releasing the driver), so when the
page-0 fetch raises, the paginator propagates the exception instead of
returning the records accumulated so far (here `[]`). -/
theorem transport_error_indeed_propagates_cex :
    search_indeed_for_term (fun _ => Except.error TransportError.httpError) "t" "l" 1 "now"
        = Except.error TransportError.httpError ∧
    search_indeed_for_term (fun _ => Except.error TransportError.httpError) "t" "l" 1 "now"
        ≠ Except.ok [] := by
  constructor
  · rfl
  · intro h
    rw [show search_indeed_for_term (fun _ => Except.error TransportError.httpError)
          "t" "l" 1 "now" = Except.error TransportError.httpError from rfl] at h
    exact Except.noConfusion h

/-- C2 amended: for the Google and LinkedIn paginators a transport error
raised while fetching page `k` is caught inside the paginator, ends
pagination for that source/term only, and the records accumulated from
pages `0..k-1` are returned; the Indeed (Selenium) paginator, which has
no `except` clause, instead propagates the error to its caller.  In all
three cases no page after `k` is fetched. -/
theorem transport_error_policy (fetch : Fetch) (term loc now : String) (k mp : Nat)
    (pI pG pL : Nat → Html) (eI eG eL : TransportError)
    (hGok : ∀ i, i < k → fetch (build_google_jobs_url term loc (i * 10)) = Except.ok (pG i))
    (hGne : ∀ i, i < k → parse_google_jobs (pG i) term now ≠ [])
    (hGerr : fetch (build_google_jobs_url term loc (k * 10)) = Except.error eG)
    (hLok : ∀ i, i < k → fetch (build_linkedin_url term loc i) = Except.ok (pL i))
    (hLne : ∀ i, i < k → parse_linkedin_jobs (pL i) term now ≠ [])
    (hLerr : fetch (build_linkedin_url term loc k) = Except.error eL)
    (hIok : ∀ i, i < k → fetch (build_indeed_url term loc (i * 10)) = Except.ok (pI i))
    (hIne : ∀ i, i < k → parse_indeed_jobs (pI i) term now ≠ [])
    (hIerr : fetch (build_indeed_url term loc (k * 10)) = Except.error eI)
    (hmp : k < mp) :
    (search_google_jobs_for_term fetch term loc mp now
        = ((List.range k).map (fun i => parse_google_jobs (pG i) term now)).flatten
      ∧ (search_google_run fetch term loc mp now).2
          = (List.range (k + 1)).map (fun i => build_google_jobs_url term loc (i * 10))) ∧
    (search_linkedin_for_term fetch term loc mp now
        = ((List.range k).map (fun i => parse_linkedin_jobs (pL i) term now)).flatten
      ∧ (search_linkedin_run fetch term loc mp now).2
          = (List.range (k + 1)).map (fun i => build_linkedin_url term loc i)) ∧
    (search_indeed_for_term fetch term loc mp now = Except.error eI
      ∧ (search_indeed_run fetch term loc mp now).2
          = (List.range (k + 1)).map (fun i => build_indeed_url term loc (i * 10))) := by
  have hG := paginateCatch_stop_error fetch (fun p => build_google_jobs_url term loc (p * 10))
    (fun html => parse_google_jobs html term now) pG k eG hGok hGne hGerr mp 0 []
    (Nat.zero_le k) (by omega)
  have hL := paginateCatch_stop_error fetch (fun p => build_linkedin_url term loc p)
    (fun html => parse_linkedin_jobs html term now) pL k eL hLok hLne hLerr mp 0 []
    (Nat.zero_le k) (by omega)
  have hI := paginateRaise_stop_error fetch (fun p => build_indeed_url term loc (p * 10))
    (fun html => parse_indeed_jobs html term now) pI k eI hIok hIne hIerr mp 0 []
    (Nat.zero_le k) (by omega)
  refine ⟨⟨?_, ?_⟩, ⟨?_, ?_⟩, ⟨?_, ?_⟩⟩
  · simp only [search_google_jobs_for_term, search_google_run]
    rw [hG]
    simp [List.range_eq_range']
  · simp only [search_google_run]
    rw [hG]
    simp [List.range_eq_range']
  · simp only [search_linkedin_for_term, search_linkedin_run]
    rw [hL]
    simp [List.range_eq_range']
  · simp only [search_linkedin_run]
    rw [hL]
    simp [List.range_eq_range']
  · simp only [search_indeed_for_term, search_indeed_run]
    rw [hI]
  · simp only [search_indeed_run]
    rw [hI]
    simp [List.range_eq_range']

/-- Witness for the amended C2: with every fetch failing, the Google and
LinkedIn paginators return no records after fetching only page 0, and the
Indeed paginator surfaces the error after fetching only page 0. -/
theorem transport_error_policy_witness :
    (search_google_jobs_for_term (fun _ => Except.error TransportError.httpError)
        "t" "l" 1 "T" = []
      ∧ (search_google_run (fun _ => Except.error TransportError.httpError)
          "t" "l" 1 "T").2 = [build_google_jobs_url "t" "l" 0]) ∧
    (search_linkedin_for_term (fun _ => Except.error TransportError.httpError)
        "t" "l" 1 "T" = []
      ∧ (search_linkedin_run (fun _ => Except.error TransportError.httpError)
          "t" "l" 1 "T").2 = [build_linkedin_url "t" "l" 0]) ∧
    (search_indeed_for_term (fun _ => Except.error TransportError.httpError)
        "t" "l" 1 "T" = Except.error TransportError.httpError
      ∧ (search_indeed_run (fun _ => Except.error TransportError.httpError)
          "t" "l" 1 "T").2 = [build_indeed_url "t" "l" 0]) :=
  transport_error_policy (fun _ => Except.error TransportError.httpError) "t" "l" "T" 0 1
    (fun _ => []) (fun _ => []) (fun _ => [])
    TransportError.httpError TransportError.httpError TransportError.httpError
    (by intro i hi; omega) (by intro i hi; omega) rfl
    (by intro i hi; omega) (by intro i hi; omega) rfl
    (by intro i hi; omega) (by intro i hi; omega) rfl
    (by omega)
